import Mathlib

/-!
Verification development for the bee-repair migration utility.

The development shallowly embeds the core of the repository:

* `export` — the Export Engine of `src/internal/exporter/exporter.go`
  (`(*exporter).export`), which streams every record of the local chunk
  index into a tar archive behind a version-marker entry while reporting
  progress.
* `FileRepair`, `DirectoryRepair`, `getOldFileEntry`,
  `getOldDirectoryEntry` — the Migration Orchestrator of the `repair`
  package (`src/unnamed/part_000`).

Byte strings are modelled as `List Nat`; machine integers of the source
(lengths, counters) stay inside `Nat` ranges where no overflow is
possible.  External collaborators (the content store joiner, the mantaray
node decoder, the manifest builder persistence and the cancellation
signal) are parameters of an `Env` record: each call of the source into
one of those services becomes a lookup of the corresponding field, so a
theorem quantified over `Env` covers every behaviour of the collaborators.
The concurrent walk producer is embedded as the deterministic trace it
generates: one data-channel send per processed leaf in depth-first order,
at most one error-channel send, then the two deferred channel closes; the
consumer loop of `DirectoryRepair` receives that trace in order, with the
cancellation branch taken as soon as the signal is ready (the schedule in
which the select honours a pending cancellation at the next suspension
point, as the specification describes).
-/

namespace BeeRepair

/-- Byte strings (Go `[]byte` and `string` values) as lists of byte values. -/
abbrev Bytes := List Nat

/-- Bytes of a Lean string literal, used to embed the Go string constants. -/
def strBytes (s : String) : Bytes := s.data.map Char.toNat

/-- Error values surfaced by the embedded operations.  Constructors cover the
taxonomy of the source: store misses, malformed records, the bounded-read
abort, manifest-path lookup misses, the cancellation cause and opaque
errors injected by external collaborators. -/
inductive Err where
  | notFound (addr : Bytes)
  | decodeError
  | limitExceeded
  | lookupNotFound (path : Bytes)
  | cancelled
  | external (code : Nat)
  deriving DecidableEq

deriving instance DecidableEq for Except

/-! ## Export Engine (src/internal/exporter/exporter.go) -/

/-- Literal `ExportVersionFilename` of exporter.go: the tar entry name
holding the export format version. -/
def ExportVersionFilename : Bytes := strBytes ".swarm-export-version"

/-- Literal `CurrentExportVersion` of exporter.go. -/
def CurrentExportVersion : Bytes := strBytes "1"

/-- One row of the retrieval index, as decoded by `getRetrievalIndex`:
address key, raw chunk data, store timestamp and bin id. -/
structure IndexRecord where
  address : Bytes
  data : Bytes
  storedAtUnix : Int
  binID : Nat
  deriving DecidableEq

/-- One tar entry as written by `export`: header name, header mode (0644),
declared size and the payload bytes that follow the header. -/
structure ArchiveEntry where
  name : Bytes
  mode : Nat
  size : Nat
  payload : Bytes
  deriving DecidableEq

/-- Lowercase hex digit of a value below 16, as an ASCII byte:
48 is the code of the digit zero and 97 the code of lowercase a. -/
def hexDigit (n : Nat) : Nat := if n < 10 then 48 + n else 87 + n

/-- Go `hex.EncodeToString`: two lowercase hex digits per input byte. -/
def hexEncode (bs : Bytes) : Bytes :=
  bs.flatMap (fun b => [hexDigit (b / 16), hexDigit (b % 16)])

/-- The tar entry `export` writes for one index record: name is the
lowercase-hex address, declared size is the exact payload length. -/
def recordEntry (r : IndexRecord) : ArchiveEntry :=
  ⟨hexEncode r.address, 420, r.data.length, r.data⟩

/-- The version-marker entry `export` writes first. -/
def versionEntry : ArchiveEntry :=
  ⟨ExportVersionFilename, 420, CurrentExportVersion.length, CurrentExportVersion⟩

/-- Everything one run of `export` did: the archive entries written in
order, the progress calls `Update(done, total)` in call order, and the
error returned (none on success). -/
structure ExportTrace where
  archive : List ArchiveEntry
  updates : List (Nat × Nat)
  err : Option Err
  deriving DecidableEq

/-- The `retrievalIndex.Iterate` loop of `export`: per record it writes the
header and payload, increments `doneCount` and reports progress; `failAt`
injects the external write failure for the record at that position (the
iterate callback then returns the error and the loop stops, with no
progress call for the failed record). -/
def exportLoop (total : Nat) (failAt : Option Nat) :
    List IndexRecord → Nat → List ArchiveEntry × List (Nat × Nat) × Option Err
  | [], _ => ([], [], none)
  | r :: rs, done =>
    if failAt = some done then ([], [], some (Err.external 0))
    else
      let rest := exportLoop total failAt rs (done + 1)
      (recordEntry r :: rest.1, (done + 1, total) :: rest.2.1, rest.2.2)

/-- The body of `(*exporter).export`: count the records, write the
version-marker entry, report `Update(0, total)`, then stream every record
through `exportLoop` (Lean reserves the name export, so the def carries the CLI command name exportDB).  `index` is the retrieval index in its native
address-ascending iteration order; `failAt` schedules an external write
failure (none for a run whose writes all succeed). -/
def exportDB (index : List IndexRecord) (failAt : Option Nat) : ExportTrace :=
  let total := index.length
  let rest := exportLoop total failAt index 0
  ⟨versionEntry :: rest.1, (0, total) :: rest.2.1, rest.2.2⟩

/-! ## Data model of the repair package (src/unnamed/part_000) -/

/-- Go `swarm.ZeroAddress`: the empty (zero) content reference returned by
every failing migration path. -/
def zeroAddress : Bytes := []

/-- Length in bytes of a swarm reference (`swarm.SectionSize`, 32). -/
def refSize : Nat := 32

/-- Constant `limitMetadataLength = swarm.ChunkSize` of the repair package:
the byte ceiling handed to the bounded writer in `getOldFileEntry`. -/
def limitMetadataLength : Nat := 4096

/-- Go `manifest.RootPath`, the path of the site-level root entry. -/
def rootPath : Bytes := strBytes "/"

/-- Go `manifest.WebsiteIndexDocumentSuffixKey`. -/
def websiteIndexDocumentSuffixKey : Bytes := strBytes "website-index-document"

/-- Go `manifest.WebsiteErrorDocumentPathKey`. -/
def websiteErrorDocumentPathKey : Bytes := strBytes "website-error-document"

/-- Go `manifest.EntryMetadataFilenameKey`. -/
def entryMetadataFilenameKey : Bytes := strBytes "Filename"

/-- Go `manifest.EntryMetadataContentTypeKey`. -/
def entryMetadataContentTypeKey : Bytes := strBytes "Content-Type"

/-- Go `entry.Entry` of the legacy collection format: the content reference
of the file data and the reference of the separate metadata blob. -/
structure GoEntry where
  reference : Bytes
  metadata : Bytes
  deriving DecidableEq

/-- Go `entry.Metadata`: filename and MIME type decoded from the metadata
blob. -/
structure Metadata where
  filename : Bytes
  mimeType : Bytes
  deriving DecidableEq

/-- The `fileEntry` record of the repair package: path of the file inside
the directory, its decoded legacy entry and decoded metadata. -/
structure FileEntry where
  filepath : Bytes
  e : GoEntry
  mtdt : Metadata
  deriving DecidableEq

/-- One value stored under a path of the new manifest (`manifest.NewEntry`):
a content reference plus a metadata map, kept as the association pairs in
the order the source writes them. -/
structure ManifestEntry where
  reference : Bytes
  metadata : List (Bytes × Bytes)
  deriving DecidableEq

/-- The new manifest as the sequence of `Add(path, entry)` calls performed,
in call order. -/
abbrev Manifest := List (Bytes × ManifestEntry)

/-- Modelled from the spec: `entry.(*Entry).UnmarshalBinary` lives in the
package `internal/collection/entry`, which is not among the staged source
files.  Per the spec it is a fixed-layout binary decode pairing a content
reference with a metadata reference, failing if the byte length does not
match the expected record size. -/
def decodeEntry (bs : Bytes) : Except Err GoEntry :=
  if bs.length = 2 * refSize then
    Except.ok ⟨bs.take refSize, bs.drop refSize⟩
  else Except.error Err.decodeError

/-- Modelled from the spec: serialization of `entry.Metadata`
(`internal/collection/entry` is not among the staged source files).  The
blob is a length-bounded structured encoding of filename and MIME type;
the model length-prefixes the filename. -/
def encodeMetadata (m : Metadata) : Bytes :=
  m.filename.length :: m.filename ++ m.mimeType

/-- Modelled from the spec: structured decode of an `entry.Metadata` blob
(`json.Unmarshal` target of `internal/collection/entry`), failing on
malformed encoding; partial inverse of `encodeMetadata`. -/
def decodeMetadata (bs : Bytes) : Except Err Metadata :=
  match bs with
  | [] => Except.error Err.decodeError
  | n :: rest =>
    if n ≤ rest.length then Except.ok ⟨rest.take n, rest.drop n⟩
    else Except.error Err.decodeError

mutual

/-- Modelled from the spec: a legacy mantaray trie node (the mantaray
library is an external collaborator).  A node carries a leaf flag (true
when the walk classifies it as a file), its entry reference, its metadata
map and its forks keyed by path segment. -/
inductive Node where
  | mk (isLeaf : Bool) (entryRef : Bytes) (metadata : List (Bytes × Bytes)) (forks : Forks)

/-- Fork list of a `Node`, keyed by byte-string path segment. -/
inductive Forks where
  | nil
  | cons (segment : Bytes) (child : Node) (rest : Forks)

end

/-- Metadata map of a node (`mantaray.(*Node).Metadata`). -/
def Node.metadata : Node → List (Bytes × Bytes)
  | .mk _ _ md _ => md

/-- Entry reference of a node (`mantaray.(*Node).Entry`). -/
def Node.entryRef : Node → Bytes
  | .mk _ ref _ _ => ref

mutual

/-- Modelled from the spec: the depth-first walk of the Legacy Tree Reader
(`mantaray.(*Node).Walk`).  It yields, in child-key order, one
(path, entry reference) pair per leaf (file) node; internal nodes are
visited but produce no pair, exactly as `walkFn` of the repair package
ignores directory visits. -/
def walkLeaves : Node → Bytes → List (Bytes × Bytes)
  | .mk isLeaf ref _ forks, path =>
    (if isLeaf then [(path, ref)] else []) ++ forksLeaves forks path

/-- Leaves contributed by a fork list, in fork order. -/
def forksLeaves : Forks → Bytes → List (Bytes × Bytes)
  | .nil, _ => []
  | .cons seg child rest, path =>
    walkLeaves child (path ++ seg) ++ forksLeaves rest path

end

mutual

/-- Modelled from the spec: `mantaray.(*Node).LookupNode` — resolve a path
by descending the fork structure, a not-found error when no fork prefix
matches. -/
def lookupPath : Node → Bytes → Except Err Node
  | n, [] => Except.ok n
  | .mk _ _ _ forks, p :: ps => lookupForks forks (p :: ps)

/-- Descent step of `lookupPath` over a fork list. -/
def lookupForks : Forks → Bytes → Except Err Node
  | .nil, path => Except.error (Err.lookupNotFound path)
  | .cons seg child rest, path =>
    if seg ≠ [] ∧ seg.isPrefixOf path then lookupPath child (path.drop seg.length)
    else lookupForks rest path

end

/-- The external collaborators of one migration call, as the source
consumes them.  `fetch` is `joiner.New` followed by `file.JoinReadAll` (a
full content retrieval at a reference); `decodeNodeFn` is
`mantaray.(*Node).UnmarshalBinary`; `newManifestErr` the result of
`manifest.NewDefaultManifest`; `addResult` and `storeResult` decide the
outcomes of the manifest builder's `Add` and `Store`; `cancelAfter`
schedules the cancellation signal to be ready once that many path entries
have been received by the consumer loop (none = the context is never
cancelled). -/
structure Env where
  fetch : Bytes → Except Err Bytes
  decodeNodeFn : Bytes → Except Err Node
  newManifestErr : Option Err
  addResult : Manifest → Bytes → ManifestEntry → Option Err
  storeResult : Manifest → Except Err Bytes
  cancelAfter : Option Nat

/-- One `Add(path, entry)` call on the new manifest: the environment
decides failure, success appends the pair. -/
def manifestAdd (env : Env) (m : Manifest) (path : Bytes) (e : ManifestEntry) :
    Except Err Manifest :=
  match env.addResult m path e with
  | some err => Except.error err
  | none => Except.ok (m ++ [(path, e)])

/-- A `file.JoinReadAll` into a `cmdfile.NewLimitWriteCloser` bounded
writer.  Modelled from the spec for the bounded writer itself
(`pkg/file` is not among the staged source files): the read aborts when
more than the byte ceiling is written. -/
def joinReadAllLimited (env : Env) (addr : Bytes) (limit : Nat) : Except Err Bytes :=
  match env.fetch addr with
  | Except.error e => Except.error e
  | Except.ok bs =>
    if bs.length > limit then Except.error Err.limitExceeded else Except.ok bs

/-- Function `(*Repairer).getOldFileEntry` of the repair package, line for line: the
blob at `addr` is joined through the bounded writer capped at
`limitMetadataLength` and decoded as a legacy entry; the metadata blob at
the entry's metadata reference is then joined into a plain, unbounded
buffer and decoded as metadata.  The returned file entry has an empty
filepath, exactly as in the source (the caller fills it in). -/
def getOldFileEntry (env : Env) (addr : Bytes) : Except Err FileEntry :=
  match joinReadAllLimited env addr limitMetadataLength with
  | Except.error e => Except.error e
  | Except.ok entryBytes =>
    match decodeEntry entryBytes with
    | Except.error e => Except.error e
    | Except.ok e =>
      match env.fetch e.metadata with
      | Except.error e2 => Except.error e2
      | Except.ok mtdtBytes =>
        match decodeMetadata mtdtBytes with
        | Except.error e2 => Except.error e2
        | Except.ok mtdt => Except.ok ⟨[], e, mtdt⟩

/-- The manifest entry `FileRepair` and the `DirectoryRepair` loop build
for one file: the legacy content reference with filename and content-type
metadata. -/
def fileManifestEntry (fe : FileEntry) : ManifestEntry :=
  ⟨fe.e.reference,
   [(entryMetadataFilenameKey, fe.mtdt.filename),
    (entryMetadataContentTypeKey, fe.mtdt.mimeType)]⟩

/-- The root manifest entry `FileRepair` builds: the zero reference with
the filename as the site index-document name. -/
def rootSiteEntry (filename : Bytes) : ManifestEntry :=
  ⟨zeroAddress, [(websiteIndexDocumentSuffixKey, filename)]⟩

/-- Everything one `FileRepair` call did: returned reference and error (the
Go pair return), progress messages (tracked by the filename they carry),
the manifest `Add` calls performed in order, and whether `Store` ran. -/
structure FileTrace where
  ref : Bytes
  err : Option Err
  updates : List Bytes
  manifest : Manifest
  storeCalled : Bool
  deriving DecidableEq

/-- Function `FileRepair` of the repair package: decode the legacy file entry, emit
one progress update, build a manifest whose root entry carries the
filename as site index document over the zero reference and whose single
file entry keyed by the filename carries the content reference and
metadata, then store it.  Every failing step returns the zero address with
that step's error, as in the source. -/
def FileRepair (env : Env) (addr : Bytes) : FileTrace :=
  match getOldFileEntry env addr with
  | Except.error e => ⟨zeroAddress, some e, [], [], false⟩
  | Except.ok oldEntry =>
    let updates := [oldEntry.mtdt.filename]
    match env.newManifestErr with
    | some e => ⟨zeroAddress, some e, updates, [], false⟩
    | none =>
      match manifestAdd env [] rootPath (rootSiteEntry oldEntry.mtdt.filename) with
      | Except.error e => ⟨zeroAddress, some e, updates, [], false⟩
      | Except.ok m1 =>
        match manifestAdd env m1 oldEntry.mtdt.filename (fileManifestEntry oldEntry) with
        | Except.error e => ⟨zeroAddress, some e, updates, m1, false⟩
        | Except.ok m2 =>
          match env.storeResult m2 with
          | Except.error e => ⟨zeroAddress, some e, updates, m2, true⟩
          | Except.ok newReference => ⟨newReference, none, updates, m2, true⟩

/-- The walk producer's work over the discovered leaves, in walk order:
`walkFn` of `getOldDirectoryEntry` decodes each leaf's legacy entry and
metadata through `getOldFileEntry`, stamps the walk path into the file
entry and sends it; the first failing leaf stops the walk and its error is
the producer's single error-channel send. -/
def produceEntries (env : Env) : List (Bytes × Bytes) → List FileEntry × Option Err
  | [] => ([], none)
  | (p, eref) :: rest =>
    match getOldFileEntry env eref with
    | Except.error e => ([], some e)
    | Except.ok fe =>
      (⟨p, fe.e, fe.mtdt⟩ :: (produceEntries env rest).1, (produceEntries env rest).2)

/-- Events of the producer goroutine launched by `getOldDirectoryEntry`:
data-channel sends, the optional error-channel send, and the two deferred
channel closes. -/
inductive PEvent where
  | send (fe : FileEntry)
  | sendErr (e : Err)
  | closeErrChan
  | closeEntryChan
  deriving DecidableEq

/-- The event trace of the producer goroutine for a decoded legacy trie:
one send per processed leaf in depth-first walk order, then the error send
if the walk failed, then the deferred closes (close of the error channel
first — the defers run in reverse registration order). -/
def producerTrace (env : Env) (node : Node) : List PEvent :=
  let pe := produceEntries env (walkLeaves node [])
  pe.1.map PEvent.send ++
    (match pe.2 with
     | some e => [PEvent.sendErr e]
     | none => []) ++
    [PEvent.closeErrChan, PEvent.closeEntryChan]

/-- Outcome of `getOldDirectoryEntry`: either a failure before the
`dirEntry` value exists (recording whether the producer goroutine had
already been launched and which manifest adds had been performed), or the
`dirEntry` handed to the consumer loop — its manifest seeded with the root
entry, plus the producer's deliveries. -/
inductive SetupResult where
  | failure (e : Err) (producerLaunched : Bool) (manifest : Manifest)
  | success (manifest : Manifest) (entries : List FileEntry) (errOpt : Option Err)
  deriving DecidableEq

/-- Function `(*Repairer).getOldDirectoryEntry`, in source order: join the blob at
`addr`, decode the mantaray node, look up the root path node (before the
goroutine is launched), launch the walk producer, create the new manifest
and seed its root path entry with the zero reference and the root node's
metadata. -/
def getOldDirectoryEntry (env : Env) (addr : Bytes) : SetupResult :=
  match env.fetch addr with
  | Except.error e => SetupResult.failure e false []
  | Except.ok bs =>
    match env.decodeNodeFn bs with
    | Except.error e => SetupResult.failure e false []
    | Except.ok node =>
      match lookupPath node rootPath with
      | Except.error e => SetupResult.failure e false []
      | Except.ok rootNode =>
        match env.newManifestErr with
        | some e => SetupResult.failure e true []
        | none =>
          match manifestAdd env [] rootPath ⟨zeroAddress, rootNode.metadata⟩ with
          | Except.error e => SetupResult.failure e true []
          | Except.ok m =>
            SetupResult.success m (produceEntries env (walkLeaves node [])).1
              (produceEntries env (walkLeaves node [])).2

/-- Everything one `DirectoryRepair` call did. -/
structure DirTrace where
  ref : Bytes
  err : Option Err
  updates : List Bytes
  manifest : Manifest
  producerLaunched : Bool
  storeCalled : Bool
  deriving DecidableEq

/-- The select loop of `DirectoryRepair` over the producer's deliveries.
Each iteration first honours a ready cancellation signal (returning
`ctx.Err()`), otherwise receives the next path entry — emitting one
progress update, then adding the entry to the manifest, aborting on an
`Add` failure — and once the data channel is exhausted receives the
producer's error if one was sent, else leaves the loop and calls `Store`. -/
def dirLoop (env : Env) :
    List FileEntry → Option Err → Manifest → List Bytes → Nat → DirTrace
  | entries, errOpt, m, updates, received =>
    if env.cancelAfter = some received then
      ⟨zeroAddress, some Err.cancelled, updates, m, true, false⟩
    else
      match entries with
      | fe :: rest =>
        let updates2 := updates ++ [fe.mtdt.filename]
        match manifestAdd env m fe.filepath (fileManifestEntry fe) with
        | Except.error e => ⟨zeroAddress, some e, updates2, m, true, false⟩
        | Except.ok m2 => dirLoop env rest errOpt m2 updates2 (received + 1)
      | [] =>
        match errOpt with
        | some e => ⟨zeroAddress, some e, updates, m, true, false⟩
        | none =>
          match env.storeResult m with
          | Except.error e => ⟨zeroAddress, some e, updates, m, true, true⟩
          | Except.ok newReference => ⟨newReference, none, updates, m, true, true⟩

/-- Function `DirectoryRepair` of the repair package: set up the old directory entry
(seeding the root manifest entry and launching the walk producer), then
drive the consumer loop and return its outcome; a setup failure returns
the zero address with that error. -/
def DirectoryRepair (env : Env) (addr : Bytes) : DirTrace :=
  match getOldDirectoryEntry env addr with
  | SetupResult.failure e launched m => ⟨zeroAddress, some e, [], m, launched, false⟩
  | SetupResult.success m entries errOpt => dirLoop env entries errOpt m [] 0

/-- Proposition that the consumer loop's manifest `Add` calls all succeed
for a list of entries delivered in order, starting from a given manifest
state: the add of each entry succeeds on the manifest accumulated so far.
Used to state which `Add` of a run is the first failing one. -/
def addsSucceed (env : Env) : Manifest → List FileEntry → Prop
  | _, [] => True
  | m, fe :: rest =>
    env.addResult m fe.filepath (fileManifestEntry fe) = none ∧
    addsSucceed env (m ++ [(fe.filepath, fileManifestEntry fe)]) rest

/-! ## Concrete fixtures used by the witness theorems -/

/-- A two-record retrieval index used to exercise the export theorems. -/
def sampleIndex : List IndexRecord :=
  [⟨[0, 255], [7, 8, 9], 5, 1⟩, ⟨[1, 2], [4], 6, 2⟩]

/-- Content reference of the sample file a.txt. -/
def contentRefA : Bytes := List.replicate 32 20

/-- Metadata blob reference of the sample file a.txt. -/
def metaRefA : Bytes := List.replicate 32 21

/-- Content reference of the sample file b.jpeg. -/
def contentRefB : Bytes := List.replicate 32 22

/-- Metadata blob reference of the sample file b.jpeg. -/
def metaRefB : Bytes := List.replicate 32 23

/-- Content reference of the sample single file simple.txt. -/
def contentRefC : Bytes := List.replicate 32 24

/-- Metadata blob reference of the sample single file simple.txt. -/
def metaRefC : Bytes := List.replicate 32 25

/-- Metadata of the sample file a.txt. -/
def metaA : Metadata := ⟨strBytes "a.txt", strBytes "text/plain"⟩

/-- Metadata of the sample file b.jpeg. -/
def metaB : Metadata := ⟨strBytes "b.jpeg", strBytes "image/jpeg"⟩

/-- Metadata of the sample single file simple.txt. -/
def metaC : Metadata := ⟨strBytes "simple.txt", strBytes "text/plain"⟩

/-- Store address of the sample legacy directory manifest. -/
def dirAddr : Bytes := [1]

/-- Store address of the legacy collection entry of a.txt. -/
def leafAddrA : Bytes := [2]

/-- Store address of the legacy collection entry of b.jpeg. -/
def leafAddrB : Bytes := [3]

/-- Store address of the legacy collection entry of simple.txt. -/
def fileAddr : Bytes := [4]

/-- Raw bytes of the sample legacy directory manifest blob. -/
def dirBytes : Bytes := [100]

/-- Root metadata node of the sample legacy directory: the node the root
path resolves to, carrying the site index-document setting. -/
def rootMetaNode : Node :=
  .mk false [] [(websiteIndexDocumentSuffixKey, strBytes "b.jpeg")] .nil

/-- Sample legacy directory trie: a root metadata node under the root path
plus two leaf files, a.txt and b.jpeg. -/
def sampleNode : Node :=
  .mk false [] []
    (.cons rootPath rootMetaNode
      (.cons (strBytes "a.txt") (.mk true leafAddrA [] .nil)
        (.cons (strBytes "b.jpeg") (.mk true leafAddrB [] .nil) .nil)))

/-- Content store of the sample fixtures: directory blob, collection entry
blobs and metadata blobs at their references. -/
def sampleFetch : Bytes → Except Err Bytes := fun r =>
  if r = dirAddr then Except.ok dirBytes
  else if r = leafAddrA then Except.ok (contentRefA ++ metaRefA)
  else if r = leafAddrB then Except.ok (contentRefB ++ metaRefB)
  else if r = fileAddr then Except.ok (contentRefC ++ metaRefC)
  else if r = metaRefA then Except.ok (encodeMetadata metaA)
  else if r = metaRefB then Except.ok (encodeMetadata metaB)
  else if r = metaRefC then Except.ok (encodeMetadata metaC)
  else Except.error (Err.notFound r)

/-- Environment in which every external collaborator succeeds and the
cancellation signal never fires. -/
def sampleEnv : Env :=
  { fetch := sampleFetch
    decodeNodeFn := fun bs =>
      if bs = dirBytes then Except.ok sampleNode else Except.error Err.decodeError
    newManifestErr := none
    addResult := fun _ _ _ => none
    storeResult := fun _ => Except.ok (List.replicate 32 9)
    cancelAfter := none }

/-- The sample environment with the cancellation signal ready after one
delivered path entry. -/
def cancelEnv : Env := { sampleEnv with cancelAfter := some 1 }

/-- A legacy trie with no node under the root path. -/
def noRootNode : Node :=
  .mk false [] [] (.cons (strBytes "a.txt") (.mk true leafAddrA [] .nil) .nil)

/-- The sample environment decoding the directory blob to the trie without
a root path entry. -/
def noRootEnv : Env :=
  { sampleEnv with
    decodeNodeFn := fun bs =>
      if bs = dirBytes then Except.ok noRootNode else Except.error Err.decodeError }

/-- Store address of the legacy file entry whose metadata blob is larger
than one chunk. -/
def bigAddr : Bytes := [5]

/-- Content reference inside the oversized-metadata legacy entry. -/
def bigContentRef : Bytes := List.replicate 32 26

/-- Metadata reference inside the oversized-metadata legacy entry. -/
def bigMetaRef : Bytes := List.replicate 32 27

/-- Metadata whose encoded blob is 4101 bytes long, above the one-chunk
ceiling of 4096. -/
def bigMetadata : Metadata := ⟨List.replicate 4100 97, []⟩

/-- Environment whose store holds a legacy entry at `bigAddr` referencing
the oversized metadata blob. -/
def bigEnv : Env :=
  { sampleEnv with
    fetch := fun r =>
      if r = bigAddr then Except.ok (bigContentRef ++ bigMetaRef)
      else if r = bigMetaRef then Except.ok (encodeMetadata bigMetadata)
      else Except.error (Err.notFound r) }

/-- Environment whose store holds a 4097-byte blob at `bigAddr` itself:
what the bounded writer in `getOldFileEntry` actually caps. -/
def entryCapEnv : Env :=
  { sampleEnv with
    fetch := fun r =>
      if r = bigAddr then Except.ok (List.replicate 4097 0)
      else Except.error (Err.notFound r) }

/-- The manifest seeded by `getOldDirectoryEntry` on the sample directory:
just its root path entry. -/
def sampleRootManifest : Manifest := [(rootPath, ⟨zeroAddress, rootMetaNode.metadata⟩)]

/-- The file entries the walk producer delivers for the sample directory,
in walk order. -/
def sampleEntries : List FileEntry :=
  [⟨strBytes "a.txt", ⟨contentRefA, metaRefA⟩, metaA⟩,
   ⟨strBytes "b.jpeg", ⟨contentRefB, metaRefB⟩, metaB⟩]

/-! ## Theorems -/

/-- Shape of one `exportLoop` run: some prefix of `k` records is written
(all of them exactly when no error occurred), each with its name, payload
and size from the record, and one progress call per written record with
the done counter threading up from `done + 1`. -/
theorem exportLoop_spec (total : Nat) (failAt : Option Nat) :
    ∀ (rs : List IndexRecord) (done : Nat),
      ∃ k, k ≤ rs.length ∧
        (exportLoop total failAt rs done).1 = (rs.take k).map recordEntry ∧
        (exportLoop total failAt rs done).2.1 =
          (List.range k).map (fun i => (done + 1 + i, total)) ∧
        ((exportLoop total failAt rs done).2.2 = none → k = rs.length) := by
  intro rs
  induction rs with
  | nil =>
    intro done
    exact ⟨0, by simp [exportLoop]⟩
  | cons r rs ih =>
    intro done
    by_cases hf : failAt = some done
    · refine ⟨0, by simp, ?_⟩
      simp [exportLoop, hf]
    · obtain ⟨k, hk, h1, h2, h3⟩ := ih (done + 1)
      refine ⟨k + 1, by simpa using hk, ?_, ?_, ?_⟩
      · simp [exportLoop, hf, h1]
      · simp only [exportLoop, if_neg hf, h2, List.range_succ_eq_map, List.map_cons,
          List.map_map]
        refine congrArg₂ _ (by simp) ?_
        refine List.map_congr_left fun i _ => ?_
        simp [Function.comp]
        omega
      · intro herr
        simp only [exportLoop, if_neg hf] at herr
        simp [h3 herr]

/-- Shape of one full `exportDB` run: the version-marker entry followed by
a prefix of the records (all of them on success), with the progress call
list enumerating 0 up to the number of written records. -/
theorem exportDB_spec (index : List IndexRecord) (failAt : Option Nat) :
    ∃ k, k ≤ index.length ∧
      (exportDB index failAt).archive = versionEntry :: (index.take k).map recordEntry ∧
      (exportDB index failAt).updates =
        (List.range (k + 1)).map (fun i => (i, index.length)) ∧
      ((exportDB index failAt).err = none → k = index.length) := by
  obtain ⟨k, hk, h1, h2, h3⟩ := exportLoop_spec index.length failAt index 0
  refine ⟨k, hk, ?_, ?_, ?_⟩
  · simp [exportDB, h1]
  · simp only [exportDB, h2, List.range_succ_eq_map, List.map_cons, List.map_map]
    refine congrArg₂ _ rfl ?_
    exact List.map_congr_left fun i _ => by simp [Function.comp]; omega
  · intro herr
    exact h3 (by simpa [exportDB] using herr)

/-- Claim C3: a successful export's archive is the version-marker entry —
named by the literal marker filename, its payload the literal current
version string and its declared size that string's byte length — followed
by exactly one entry per index record in iteration order, each named the
lowercase-hex encoding of the record's address with payload the record's
data and declared size the payload's exact byte length. -/
theorem export_archive_format (index : List IndexRecord) (failAt : Option Nat)
    (hsucc : (exportDB index failAt).err = none) :
    (exportDB index failAt).archive = versionEntry :: index.map recordEntry ∧
    versionEntry = ⟨ExportVersionFilename, 420, CurrentExportVersion.length,
      CurrentExportVersion⟩ ∧
    ∀ r ∈ index, recordEntry r =
      ⟨hexEncode r.address, 420, r.data.length, r.data⟩ := by
  obtain ⟨k, hk, h1, h2, h3⟩ := exportDB_spec index failAt
  refine ⟨?_, rfl, fun r _ => rfl⟩
  rw [h1, h3 hsucc, List.take_length]

/-- Witness for C3: the archive format theorem evaluated on the concrete
two-record index. -/
theorem export_archive_format_witness :
    (exportDB sampleIndex none).archive = versionEntry :: sampleIndex.map recordEntry :=
  (export_archive_format sampleIndex none (by decide)).1

/-- Claim C4: during one export the progress calls start with
`Update(0, total)`, are strictly increasing in the done count, never
exceed the total, and on success end with `Update(total, total)` after
exactly one call per record plus the initial call. -/
theorem export_progress_monotone (index : List IndexRecord) (failAt : Option Nat) :
    (exportDB index failAt).updates.head? = some (0, index.length) ∧
    List.Pairwise (fun a b : Nat × Nat => a.1 < b.1) (exportDB index failAt).updates ∧
    (∀ u ∈ (exportDB index failAt).updates, u.1 ≤ index.length ∧ u.2 = index.length) ∧
    ((exportDB index failAt).err = none →
      (exportDB index failAt).updates.getLast? = some (index.length, index.length) ∧
      (exportDB index failAt).updates.length = index.length + 1) := by
  obtain ⟨k, hk, _, h2, h3⟩ := exportDB_spec index failAt
  refine ⟨?_, ?_, ?_, ?_⟩
  · rw [h2, List.range_succ_eq_map]
    simp
  · rw [h2, List.pairwise_map]
    simpa using List.pairwise_lt_range (k + 1)
  · intro u hu
    rw [h2] at hu
    obtain ⟨i, hi, rfl⟩ := List.mem_map.mp hu
    have := List.mem_range.mp hi
    exact ⟨by omega, rfl⟩
  · intro hsucc
    have hke := h3 hsucc
    constructor
    · rw [h2, hke, List.range_succ, List.map_append]
      simp [List.getLast?_concat]
    · rw [h2, hke]
      simp

/-- Witness for C4: the monotonicity theorem evaluated on the concrete
two-record index, with the success hypothesis of its final conjunct
discharged by computation. -/
theorem export_progress_monotone_witness :
    (exportDB sampleIndex none).updates.getLast? = some (2, 2) ∧
    (exportDB sampleIndex none).updates.length = 3 :=
  (export_progress_monotone sampleIndex none).2.2.2 (by decide)

/-- Claim C9: exporting an empty index succeeds, the archive holds exactly
the version-marker entry, and the progress sink is called exactly once,
with `Update(0, 0)`. -/
theorem export_empty_index :
    exportDB [] none = ⟨[versionEntry], [(0, 0)], none⟩ := by decide

/-- Decoding an encoded metadata blob restores it: the structured decode is
a left inverse of the encoding (also the spec's decode-idempotence note). -/
theorem decodeMetadata_encodeMetadata (m : Metadata) :
    decodeMetadata (encodeMetadata m) = Except.ok m := by
  have ht := List.take_left m.filename m.mimeType
  have hd := List.drop_left m.filename m.mimeType
  simp [decodeMetadata, encodeMetadata, ht, hd]

/-- A walk whose producer sent no error delivered one file entry per leaf,
stamped with that leaf's path, in walk order. -/
theorem produceEntries_filepaths (env : Env) :
    ∀ (leaves : List (Bytes × Bytes)) (es : List FileEntry),
      produceEntries env leaves = (es, none) →
      es.map FileEntry.filepath = leaves.map Prod.fst := by
  intro leaves
  induction leaves with
  | nil =>
    intro es h
    simp only [produceEntries] at h
    injection h with h1 h2
    simp [← h1]
  | cons l rest ih =>
    intro es h
    obtain ⟨p, eref⟩ := l
    simp only [produceEntries] at h
    cases hg : getOldFileEntry env eref with
    | error e => rw [hg] at h; simp at h
    | ok fe =>
      rw [hg] at h
      injection h with hes herr
      have hrest := ih (produceEntries env rest).1 (Prod.ext rfl herr)
      simp [← hes, hrest]

/-- Every leaf of an error-free walk shows up among the produced entries,
decoded by `getOldFileEntry` and stamped with the leaf's path. -/
theorem produceEntries_mem (env : Env) :
    ∀ (leaves : List (Bytes × Bytes)) (es : List FileEntry) (p eref : Bytes),
      produceEntries env leaves = (es, none) → (p, eref) ∈ leaves →
      ∃ fe, getOldFileEntry env eref = Except.ok fe ∧
        (⟨p, fe.e, fe.mtdt⟩ : FileEntry) ∈ es := by
  intro leaves
  induction leaves with
  | nil => intro es p eref _ hmem; cases hmem
  | cons l rest ih =>
    intro es p eref h hmem
    obtain ⟨q, qref⟩ := l
    simp only [produceEntries] at h
    cases hg : getOldFileEntry env qref with
    | error e => rw [hg] at h; simp at h
    | ok fe =>
      rw [hg] at h
      injection h with hes herr
      rcases List.mem_cons.mp hmem with hhead | htail
      · have hp : p = q := congrArg Prod.fst hhead
        have hq : eref = qref := congrArg Prod.snd hhead
        refine ⟨fe, by rw [hq]; exact hg, ?_⟩
        rw [← hes, hp]
        exact List.mem_cons_self _ _
      · obtain ⟨fe2, hfe2, hmem2⟩ := ih (produceEntries env rest).1 p eref
          (Prod.ext rfl herr) htail
        exact ⟨fe2, hfe2, by rw [← hes]; exact List.mem_cons_of_mem _ hmem2⟩

/-- Whenever the consumer loop returns an error, it returns the zero
reference with it. -/
theorem dirLoop_err_zero (env : Env) :
    ∀ (entries : List FileEntry) (errOpt : Option Err) (m : Manifest)
      (updates : List Bytes) (received : Nat) (e : Err),
      (dirLoop env entries errOpt m updates received).err = some e →
      (dirLoop env entries errOpt m updates received).ref = zeroAddress := by
  intro entries
  induction entries with
  | nil =>
    intro errOpt m updates received e h
    by_cases hc : env.cancelAfter = some received
    · simp [dirLoop, hc]
    · cases errOpt with
      | some e2 => simp [dirLoop, hc]
      | none =>
        cases hs : env.storeResult m with
        | error e2 => simp [dirLoop, hc, hs]
        | ok r => simp [dirLoop, hc, hs] at h
  | cons fe rest ih =>
    intro errOpt m updates received e h
    by_cases hc : env.cancelAfter = some received
    · simp [dirLoop, hc]
    · cases ha : env.addResult m fe.filepath (fileManifestEntry fe) with
      | some e2 => simp [dirLoop, hc, manifestAdd, ha]
      | none =>
        simp only [dirLoop, if_neg hc, manifestAdd, ha] at h ⊢
        exact ih _ _ _ _ e h

/-- A consumer loop that finishes without error consumed every delivered
entry: the producer sent no error, every entry was appended to the
manifest in delivery order after one progress update each, and `Store`
ran. -/
theorem dirLoop_success (env : Env) :
    ∀ (entries : List FileEntry) (errOpt : Option Err) (m : Manifest)
      (updates : List Bytes) (received : Nat),
      (dirLoop env entries errOpt m updates received).err = none →
      errOpt = none ∧
      (dirLoop env entries errOpt m updates received).manifest =
        m ++ entries.map (fun fe => (fe.filepath, fileManifestEntry fe)) ∧
      (dirLoop env entries errOpt m updates received).updates =
        updates ++ entries.map (fun fe => fe.mtdt.filename) ∧
      (dirLoop env entries errOpt m updates received).storeCalled = true := by
  intro entries
  induction entries with
  | nil =>
    intro errOpt m updates received h
    by_cases hc : env.cancelAfter = some received
    · simp [dirLoop, hc] at h
    · cases errOpt with
      | some e2 => simp [dirLoop, hc] at h
      | none =>
        cases hs : env.storeResult m with
        | error e2 => simp [dirLoop, hc, hs] at h
        | ok r => simp [dirLoop, hc, hs]
  | cons fe rest ih =>
    intro errOpt m updates received h
    by_cases hc : env.cancelAfter = some received
    · simp [dirLoop, hc] at h
    · cases ha : env.addResult m fe.filepath (fileManifestEntry fe) with
      | some e2 => simp [dirLoop, hc, manifestAdd, ha] at h
      | none =>
        simp only [dirLoop, if_neg hc, manifestAdd, ha] at h ⊢
        obtain ⟨h1, h2, h3, h4⟩ := ih _ _ _ _ h
        exact ⟨h1, by simp [h2], by simp [h3], h4⟩

/-- If the cancellation signal is scheduled to be ready after `k` more
deliveries and at least that many entries remain (and the manifest adds
themselves succeed), the loop returns the cancellation error with the zero
reference and `Store` is never called. -/
theorem dirLoop_cancel (env : Env)
    (hadd : ∀ m2 p e2, env.addResult m2 p e2 = none) :
    ∀ (entries : List FileEntry) (errOpt : Option Err) (m : Manifest)
      (updates : List Bytes) (received k : Nat),
      env.cancelAfter = some (received + k) → k ≤ entries.length →
      (dirLoop env entries errOpt m updates received).err = some Err.cancelled ∧
      (dirLoop env entries errOpt m updates received).ref = zeroAddress ∧
      (dirLoop env entries errOpt m updates received).storeCalled = false := by
  intro entries
  induction entries with
  | nil =>
    intro errOpt m updates received k hc hk
    have hk0 : k = 0 := by simpa using hk
    rw [hk0] at hc
    simp [dirLoop, hc]
  | cons fe rest ih =>
    intro errOpt m updates received k hc hk
    cases k with
    | zero =>
      rw [Nat.add_zero] at hc
      simp [dirLoop, hc]
    | succ k2 =>
      have hne : ¬env.cancelAfter = some received := by
        rw [hc]
        intro hcontra
        have := Option.some.injEq .. ▸ hcontra
        omega
      simp only [dirLoop, if_neg hne, manifestAdd, hadd]
      exact ih _ _ _ _ k2 (by rw [hc]; congr 1; omega) (by simpa using hk)

/-- When the producer reported a walk error and the signal never fires, the
consumer surfaces exactly that error with the zero reference and `Store`
is never called. -/
theorem dirLoop_walk_err (env : Env)
    (hadd : ∀ m2 p e2, env.addResult m2 p e2 = none)
    (hnc : env.cancelAfter = none) :
    ∀ (entries : List FileEntry) (e : Err) (m : Manifest)
      (updates : List Bytes) (received : Nat),
      (dirLoop env entries (some e) m updates received).err = some e ∧
      (dirLoop env entries (some e) m updates received).ref = zeroAddress ∧
      (dirLoop env entries (some e) m updates received).storeCalled = false := by
  intro entries
  induction entries with
  | nil =>
    intro e m updates received
    simp [dirLoop, hnc]
  | cons fe rest ih =>
    intro e m updates received
    simp only [dirLoop, hnc, manifestAdd, hadd]
    simpa using ih e _ _ (received + 1)

/-- When the adds of a delivered prefix succeed and the add of the next
entry fails, the consumer loop returns exactly that failing add's error
with the zero reference, and `Store` is never called. -/
theorem dirLoop_add_err (env : Env) (hnc : env.cancelAfter = none) :
    ∀ (pre : List FileEntry) (fe : FileEntry) (rest : List FileEntry)
      (errOpt : Option Err) (m : Manifest) (updates : List Bytes)
      (received : Nat) (e : Err),
      addsSucceed env m pre →
      env.addResult
        (m ++ pre.map (fun fe2 => (fe2.filepath, fileManifestEntry fe2)))
        fe.filepath (fileManifestEntry fe) = some e →
      (dirLoop env (pre ++ fe :: rest) errOpt m updates received).err = some e ∧
      (dirLoop env (pre ++ fe :: rest) errOpt m updates received).ref = zeroAddress ∧
      (dirLoop env (pre ++ fe :: rest) errOpt m updates received).storeCalled =
        false := by
  intro pre
  induction pre with
  | nil =>
    intro fe rest errOpt m updates received e _ hfail
    simp only [List.map_nil, List.append_nil] at hfail
    simp [dirLoop, hnc, manifestAdd, hfail]
  | cons p pre ih =>
    intro fe rest errOpt m updates received e hpre hfail
    obtain ⟨hp, hrest⟩ := hpre
    simp only [List.cons_append, dirLoop, hnc, manifestAdd, hp]
    refine ih fe rest errOpt _ _ (received + 1) e hrest ?_
    simpa using hfail

/-- When every delivered entry was added successfully and the producer sent
no error but the final `Store` fails, the loop returns exactly the store
error with the zero reference. -/
theorem dirLoop_store_err (env : Env) (hnc : env.cancelAfter = none) :
    ∀ (entries : List FileEntry) (m : Manifest) (updates : List Bytes)
      (received : Nat) (e : Err),
      addsSucceed env m entries →
      env.storeResult
        (m ++ entries.map (fun fe2 => (fe2.filepath, fileManifestEntry fe2))) =
        Except.error e →
      (dirLoop env entries none m updates received).err = some e ∧
      (dirLoop env entries none m updates received).ref = zeroAddress := by
  intro entries
  induction entries with
  | nil =>
    intro m updates received e _ hfail
    simp only [List.map_nil, List.append_nil] at hfail
    simp [dirLoop, hnc, hfail]
  | cons p rest ih =>
    intro m updates received e hpre hfail
    obtain ⟨hp, hrest⟩ := hpre
    simp only [dirLoop, hnc, manifestAdd, hp]
    refine ih _ _ (received + 1) e hrest ?_
    simpa using hfail

/-- A `FileRepair` call either returned the zero reference or succeeded. -/
theorem FileRepair_shape (env : Env) (addr : Bytes) :
    (FileRepair env addr).ref = zeroAddress ∨ (FileRepair env addr).err = none := by
  simp only [FileRepair]
  split
  · exact Or.inl rfl
  · split
    · exact Or.inl rfl
    · split
      · exact Or.inl rfl
      · split
        · exact Or.inl rfl
        · split
          · exact Or.inl rfl
          · exact Or.inr rfl

/-- What a successful `getOldDirectoryEntry` run pinned down, given the
directory blob and its decoded trie: the root node was looked up, the
seeded manifest is exactly the root path entry over the zero reference
with the root node's metadata, and the deliveries are the producer's. -/
theorem getOldDirectoryEntry_success (env : Env) (addr bs : Bytes) (node : Node)
    (h1 : env.fetch addr = Except.ok bs) (h2 : env.decodeNodeFn bs = Except.ok node)
    (m : Manifest) (entries : List FileEntry) (errOpt : Option Err)
    (h : getOldDirectoryEntry env addr = SetupResult.success m entries errOpt) :
    ∃ rootNode, lookupPath node rootPath = Except.ok rootNode ∧
      m = [(rootPath, ⟨zeroAddress, rootNode.metadata⟩)] ∧
      entries = (produceEntries env (walkLeaves node [])).1 ∧
      errOpt = (produceEntries env (walkLeaves node [])).2 := by
  simp only [getOldDirectoryEntry, h1, h2] at h
  cases hl : lookupPath node rootPath with
  | error e => rw [hl] at h; simp at h
  | ok rootNode =>
    rw [hl] at h
    cases hn : env.newManifestErr with
    | some e => rw [hn] at h; simp at h
    | none =>
      rw [hn] at h
      simp only [manifestAdd] at h
      cases ha : env.addResult [] rootPath ⟨zeroAddress, rootNode.metadata⟩ with
      | some e => rw [ha] at h; simp at h
      | none =>
        rw [ha] at h
        simp only [List.nil_append] at h
        injection h with hm hent herr
        exact ⟨rootNode, rfl, hm.symm, hent.symm, herr.symm⟩

/-- A successful `DirectoryRepair` run decomposed: the setup succeeded, the
producer sent no error, and the final manifest and update list are the
seeded root entry followed by one manifest add and one progress update per
delivered entry, in delivery order. -/
theorem DirectoryRepair_success (env : Env) (addr : Bytes)
    (hsucc : (DirectoryRepair env addr).err = none) :
    ∃ m entries, getOldDirectoryEntry env addr = SetupResult.success m entries none ∧
      (DirectoryRepair env addr).manifest =
        m ++ entries.map (fun fe => (fe.filepath, fileManifestEntry fe)) ∧
      (DirectoryRepair env addr).updates =
        entries.map (fun fe => fe.mtdt.filename) := by
  cases hsetup : getOldDirectoryEntry env addr with
  | failure e launched m2 =>
    rw [DirectoryRepair, hsetup] at hsucc
    simp at hsucc
  | success m entries errOpt =>
    simp only [DirectoryRepair, hsetup] at hsucc
    obtain ⟨he, hm, hu, _⟩ := dirLoop_success env entries errOpt m [] 0 hsucc
    refine ⟨m, entries, ?_, ?_, ?_⟩
    · rw [he]
    · simp only [DirectoryRepair, hsetup]
      rw [hm]
    · simp only [DirectoryRepair, hsetup]
      rw [hu]
      simp

/-- Claim C1: a directory migration that returns successfully emitted
exactly one progress notification per leaf of the legacy tree, and every
path of the legacy tree is in the new manifest with the content reference,
filename and MIME type decoded unchanged from that leaf's legacy entry and
metadata records. -/
theorem directoryRepair_complete (env : Env) (addr bs : Bytes) (node : Node)
    (h1 : env.fetch addr = Except.ok bs) (h2 : env.decodeNodeFn bs = Except.ok node)
    (hsucc : (DirectoryRepair env addr).err = none) :
    (DirectoryRepair env addr).updates.length = (walkLeaves node []).length ∧
    ∀ p eref : Bytes, (p, eref) ∈ walkLeaves node [] →
      ∃ fe, getOldFileEntry env eref = Except.ok fe ∧
        (p, ⟨fe.e.reference,
          [(entryMetadataFilenameKey, fe.mtdt.filename),
           (entryMetadataContentTypeKey, fe.mtdt.mimeType)]⟩) ∈
          (DirectoryRepair env addr).manifest := by
  obtain ⟨m, entries, hsetup, hman, hupd⟩ := DirectoryRepair_success env addr hsucc
  obtain ⟨rootNode, hroot, hm, hent, herr⟩ :=
    getOldDirectoryEntry_success env addr bs node h1 h2 m entries none hsetup
  have hpe : produceEntries env (walkLeaves node []) = (entries, none) := by
    rw [hent]
    exact Prod.ext rfl herr.symm
  constructor
  · have hlen : entries.length = (walkLeaves node []).length := by
      have := congrArg List.length (produceEntries_filepaths env _ entries hpe)
      simpa using this
    rw [hupd, List.length_map, hlen]
  · intro p eref hmem
    obtain ⟨fe, hfe, hmemes⟩ := produceEntries_mem env _ entries p eref hpe hmem
    refine ⟨fe, hfe, ?_⟩
    rw [hman]
    refine List.mem_append_right _ ?_
    have hmm := List.mem_map_of_mem
      (fun fe2 => (fe2.filepath, fileManifestEntry fe2)) hmemes
    simpa [fileManifestEntry] using hmm

/-- Witness for C1: the completeness theorem evaluated on the concrete
sample directory of two files. -/
theorem directoryRepair_complete_witness :
    (DirectoryRepair sampleEnv dirAddr).updates.length =
      (walkLeaves sampleNode []).length ∧
    ∀ p eref : Bytes, (p, eref) ∈ walkLeaves sampleNode [] →
      ∃ fe, getOldFileEntry sampleEnv eref = Except.ok fe ∧
        (p, ⟨fe.e.reference,
          [(entryMetadataFilenameKey, fe.mtdt.filename),
           (entryMetadataContentTypeKey, fe.mtdt.mimeType)]⟩) ∈
          (DirectoryRepair sampleEnv dirAddr).manifest :=
  directoryRepair_complete sampleEnv dirAddr dirBytes sampleNode
    (by decide) (by rfl) (by decide)

/-- Claim C2: a single-file migration that returns successfully built a
manifest of exactly two entries — a root entry carrying the zero reference
with the original filename as site index-document name, and one file entry
keyed by the filename carrying the original content reference together
with filename and MIME-type metadata — and emitted one progress update. -/
theorem fileRepair_manifest (env : Env) (addr : Bytes) (fe : FileEntry)
    (h : getOldFileEntry env addr = Except.ok fe)
    (hsucc : (FileRepair env addr).err = none) :
    (FileRepair env addr).manifest =
      [(rootPath, ⟨zeroAddress, [(websiteIndexDocumentSuffixKey, fe.mtdt.filename)]⟩),
       (fe.mtdt.filename,
        ⟨fe.e.reference,
         [(entryMetadataFilenameKey, fe.mtdt.filename),
          (entryMetadataContentTypeKey, fe.mtdt.mimeType)]⟩)] ∧
    (FileRepair env addr).updates = [fe.mtdt.filename] := by
  cases hn : env.newManifestErr with
  | some e => simp [FileRepair, h, hn] at hsucc
  | none =>
    cases ha1 : env.addResult [] rootPath (rootSiteEntry fe.mtdt.filename) with
    | some e => simp [FileRepair, h, hn, manifestAdd, ha1] at hsucc
    | none =>
      cases ha2 : env.addResult [(rootPath, rootSiteEntry fe.mtdt.filename)]
          fe.mtdt.filename (fileManifestEntry fe) with
      | some e => simp [FileRepair, h, hn, manifestAdd, ha1, ha2] at hsucc
      | none =>
        cases hs : env.storeResult
            [(rootPath, rootSiteEntry fe.mtdt.filename),
             (fe.mtdt.filename, fileManifestEntry fe)] with
        | error e => simp [FileRepair, h, hn, manifestAdd, ha1, ha2, hs] at hsucc
        | ok r =>
          simp only [FileRepair, h, manifestAdd, hn, ha1, List.nil_append, ha2,
            List.cons_append, hs]
          constructor
          · simp [rootSiteEntry, fileManifestEntry]
          · trivial

/-- Witness for C2: the single-file manifest theorem evaluated on the
concrete sample file simple.txt. -/
theorem fileRepair_manifest_witness :
    (FileRepair sampleEnv fileAddr).manifest =
      [(rootPath, ⟨zeroAddress, [(websiteIndexDocumentSuffixKey, metaC.filename)]⟩),
       (metaC.filename,
        ⟨contentRefC,
         [(entryMetadataFilenameKey, metaC.filename),
          (entryMetadataContentTypeKey, metaC.mimeType)]⟩)] ∧
    (FileRepair sampleEnv fileAddr).updates = [metaC.filename] :=
  fileRepair_manifest sampleEnv fileAddr ⟨[], ⟨contentRefC, metaRefC⟩, metaC⟩
    (by decide) (by decide)

/-- Claim C5: failing migrations fail fast.  A `FileRepair` or
`DirectoryRepair` call that returns an error returns the zero reference
with it; the error of a failing decode, of a failing setup, of a failing
walk, of the first failing manifest `Add` (in either entry point) and of a
failing `Store` is propagated unchanged; and when the cancellation signal
fires after N of the delivered entries (for any N up to the number of
deliveries), the call returns the cancellation error and `Store` is never
called. -/
theorem repair_failfast (env : Env) (addr : Bytes) :
    (∀ e : Err, (FileRepair env addr).err = some e →
      (FileRepair env addr).ref = zeroAddress) ∧
    (∀ e : Err, (DirectoryRepair env addr).err = some e →
      (DirectoryRepair env addr).ref = zeroAddress) ∧
    (∀ e : Err, getOldFileEntry env addr = Except.error e →
      FileRepair env addr = ⟨zeroAddress, some e, [], [], false⟩) ∧
    (∀ (e : Err) (launched : Bool) (m : Manifest),
      getOldDirectoryEntry env addr = SetupResult.failure e launched m →
      DirectoryRepair env addr = ⟨zeroAddress, some e, [], m, launched, false⟩) ∧
    (∀ (m : Manifest) (entries : List FileEntry) (e : Err),
      getOldDirectoryEntry env addr = SetupResult.success m entries (some e) →
      env.cancelAfter = none →
      (∀ m2 p e2, env.addResult m2 p e2 = none) →
      (DirectoryRepair env addr).err = some e ∧
      (DirectoryRepair env addr).ref = zeroAddress ∧
      (DirectoryRepair env addr).storeCalled = false) ∧
    (∀ (m : Manifest) (entries : List FileEntry) (errOpt : Option Err) (N : Nat),
      getOldDirectoryEntry env addr = SetupResult.success m entries errOpt →
      env.cancelAfter = some N → N ≤ entries.length →
      (∀ m2 p e2, env.addResult m2 p e2 = none) →
      (DirectoryRepair env addr).err = some Err.cancelled ∧
      (DirectoryRepair env addr).ref = zeroAddress ∧
      (DirectoryRepair env addr).storeCalled = false) ∧
    (∀ (fe : FileEntry) (e : Err),
      getOldFileEntry env addr = Except.ok fe →
      env.newManifestErr = some e →
      FileRepair env addr = ⟨zeroAddress, some e, [fe.mtdt.filename], [], false⟩) ∧
    (∀ (fe : FileEntry) (e : Err),
      getOldFileEntry env addr = Except.ok fe →
      env.newManifestErr = none →
      env.addResult [] rootPath (rootSiteEntry fe.mtdt.filename) = some e →
      FileRepair env addr = ⟨zeroAddress, some e, [fe.mtdt.filename], [], false⟩) ∧
    (∀ (fe : FileEntry) (e : Err),
      getOldFileEntry env addr = Except.ok fe →
      env.newManifestErr = none →
      env.addResult [] rootPath (rootSiteEntry fe.mtdt.filename) = none →
      env.addResult [(rootPath, rootSiteEntry fe.mtdt.filename)] fe.mtdt.filename
        (fileManifestEntry fe) = some e →
      FileRepair env addr =
        ⟨zeroAddress, some e, [fe.mtdt.filename],
         [(rootPath, rootSiteEntry fe.mtdt.filename)], false⟩) ∧
    (∀ (fe : FileEntry) (e : Err),
      getOldFileEntry env addr = Except.ok fe →
      env.newManifestErr = none →
      env.addResult [] rootPath (rootSiteEntry fe.mtdt.filename) = none →
      env.addResult [(rootPath, rootSiteEntry fe.mtdt.filename)] fe.mtdt.filename
        (fileManifestEntry fe) = none →
      env.storeResult
        [(rootPath, rootSiteEntry fe.mtdt.filename),
         (fe.mtdt.filename, fileManifestEntry fe)] = Except.error e →
      FileRepair env addr =
        ⟨zeroAddress, some e, [fe.mtdt.filename],
         [(rootPath, rootSiteEntry fe.mtdt.filename),
          (fe.mtdt.filename, fileManifestEntry fe)], true⟩) ∧
    (∀ (m : Manifest) (entries : List FileEntry) (errOpt : Option Err)
      (pre : List FileEntry) (fe : FileEntry) (rest : List FileEntry) (e : Err),
      getOldDirectoryEntry env addr = SetupResult.success m entries errOpt →
      entries = pre ++ fe :: rest →
      env.cancelAfter = none →
      addsSucceed env m pre →
      env.addResult
        (m ++ pre.map (fun fe2 => (fe2.filepath, fileManifestEntry fe2)))
        fe.filepath (fileManifestEntry fe) = some e →
      (DirectoryRepair env addr).err = some e ∧
      (DirectoryRepair env addr).ref = zeroAddress ∧
      (DirectoryRepair env addr).storeCalled = false) ∧
    (∀ (m : Manifest) (entries : List FileEntry) (e : Err),
      getOldDirectoryEntry env addr = SetupResult.success m entries none →
      env.cancelAfter = none →
      addsSucceed env m entries →
      env.storeResult
        (m ++ entries.map (fun fe2 => (fe2.filepath, fileManifestEntry fe2))) =
        Except.error e →
      (DirectoryRepair env addr).err = some e ∧
      (DirectoryRepair env addr).ref = zeroAddress) := by
  refine ⟨?_, ?_, ?_, ?_, ?_, ?_, ?_, ?_, ?_, ?_, ?_, ?_⟩
  · intro e h
    rcases FileRepair_shape env addr with hz | hns
    · exact hz
    · rw [hns] at h; cases h
  · intro e h
    cases hsetup : getOldDirectoryEntry env addr with
    | failure e2 launched m =>
      rw [DirectoryRepair, hsetup]
    | success m entries errOpt =>
      rw [DirectoryRepair, hsetup] at h ⊢
      exact dirLoop_err_zero env entries errOpt m [] 0 e h
  · intro e h
    rw [FileRepair, h]
  · intro e launched m h
    rw [DirectoryRepair, h]
  · intro m entries e hsetup hnc hadd
    rw [DirectoryRepair, hsetup]
    exact dirLoop_walk_err env hadd hnc entries e m [] 0
  · intro m entries errOpt N hsetup hc hN hadd
    rw [DirectoryRepair, hsetup]
    exact dirLoop_cancel env hadd entries errOpt m [] 0 N (by simpa using hc) hN
  · intro fe e h hn
    simp only [FileRepair, h, hn]
  · intro fe e h hn ha1
    simp only [FileRepair, h, hn, manifestAdd, ha1]
  · intro fe e h hn ha1 ha2
    simp only [FileRepair, h, hn, manifestAdd, ha1, List.nil_append, ha2]
  · intro fe e h hn ha1 ha2 hs
    simp only [FileRepair, h, hn, manifestAdd, ha1, List.nil_append, ha2,
      List.cons_append, hs]
  · intro m entries errOpt pre fe rest e hsetup hentries hnc hpre hfail
    rw [hentries] at hsetup
    rw [DirectoryRepair, hsetup]
    exact dirLoop_add_err env hnc pre fe rest errOpt m [] 0 e hpre hfail
  · intro m entries e hsetup hnc hpre hfail
    rw [DirectoryRepair, hsetup]
    exact dirLoop_store_err env hnc entries m [] 0 e hpre hfail

/-- Witness for C5: on the concrete sample directory with the cancellation
signal ready after one delivered entry, the migration returns the
cancellation error with the zero reference and without calling `Store`. -/
theorem repair_failfast_witness :
    (DirectoryRepair cancelEnv dirAddr).err = some Err.cancelled ∧
    (DirectoryRepair cancelEnv dirAddr).ref = zeroAddress ∧
    (DirectoryRepair cancelEnv dirAddr).storeCalled = false :=
  (repair_failfast cancelEnv dirAddr).2.2.2.2.2.1 sampleRootManifest sampleEntries
    none 1 (by decide) rfl (by decide) (fun _ _ _ => rfl)

/-- Claim C7: in a successful directory migration over a legacy tree whose
leaves do not occupy the root path, the new manifest's root path entry is
its first entry — added before any leaf entry — appears exactly once, and
carries the zero content reference with exactly the legacy root node's
metadata. -/
theorem directoryRepair_root_entry (env : Env) (addr bs : Bytes)
    (node rootNode : Node)
    (h1 : env.fetch addr = Except.ok bs) (h2 : env.decodeNodeFn bs = Except.ok node)
    (h3 : lookupPath node rootPath = Except.ok rootNode)
    (hnr : rootPath ∉ (walkLeaves node []).map Prod.fst)
    (hsucc : (DirectoryRepair env addr).err = none) :
    (DirectoryRepair env addr).manifest.head? =
      some (rootPath, ⟨zeroAddress, rootNode.metadata⟩) ∧
    (DirectoryRepair env addr).manifest.countP
      (fun pe => decide (pe.1 = rootPath)) = 1 := by
  obtain ⟨m, entries, hsetup, hman, _⟩ := DirectoryRepair_success env addr hsucc
  obtain ⟨rootNode2, hroot2, hm, hent, herr⟩ :=
    getOldDirectoryEntry_success env addr bs node h1 h2 m entries none hsetup
  have hrn : rootNode2 = rootNode := by
    have := hroot2.symm.trans h3
    injection this
  have hpe : produceEntries env (walkLeaves node []) = (entries, none) := by
    rw [hent]
    exact Prod.ext rfl herr.symm
  have hpaths : ∀ fe ∈ entries, fe.filepath ∈ (walkLeaves node []).map Prod.fst := by
    intro fe hfe
    rw [← produceEntries_filepaths env _ entries hpe]
    exact List.mem_map_of_mem FileEntry.filepath hfe
  constructor
  · rw [hman, hm, hrn]
    rfl
  · rw [hman, hm, hrn, List.countP_append]
    have hone : List.countP (fun pe => decide (pe.1 = rootPath))
        [(rootPath, (⟨zeroAddress, rootNode.metadata⟩ : ManifestEntry))] = 1 := by
      simp
    have hzero : List.countP (fun pe => decide (pe.1 = rootPath))
        (entries.map (fun fe => (fe.filepath, fileManifestEntry fe))) = 0 := by
      refine List.countP_eq_zero.mpr ?_
      intro a ha
      obtain ⟨fe, hfe, rfl⟩ := List.mem_map.mp ha
      have : fe.filepath ≠ rootPath := by
        intro hcontra
        exact hnr (hcontra ▸ hpaths fe hfe)
      simpa using this
    rw [hone, hzero]

/-- Witness for C7: the root-entry theorem evaluated on the concrete sample
directory. -/
theorem directoryRepair_root_entry_witness :
    (DirectoryRepair sampleEnv dirAddr).manifest.head? =
      some (rootPath, ⟨zeroAddress, rootMetaNode.metadata⟩) ∧
    (DirectoryRepair sampleEnv dirAddr).manifest.countP
      (fun pe => decide (pe.1 = rootPath)) = 1 :=
  directoryRepair_root_entry sampleEnv dirAddr dirBytes sampleNode rootMetaNode
    (by decide) (by rfl) (by rfl) (by decide) (by decide)

/-- Claim C8: the walk producer's event trace closes each of the two
channels exactly once, after every send; it sends at most one error; and
when the walk succeeds it sends exactly one path entry per discovered
leaf, stamped with the leaf's path, in depth-first walk order. -/
theorem producer_contract (env : Env) (node : Node) :
    (producerTrace env node).countP
      (fun ev => decide (ev = PEvent.closeErrChan)) = 1 ∧
    (producerTrace env node).countP
      (fun ev => decide (ev = PEvent.closeEntryChan)) = 1 ∧
    (producerTrace env node).countP
      (fun ev => match ev with | PEvent.sendErr _ => true | _ => false) ≤ 1 ∧
    (∃ pre, producerTrace env node =
        pre ++ [PEvent.closeErrChan, PEvent.closeEntryChan] ∧
      PEvent.closeErrChan ∉ pre ∧ PEvent.closeEntryChan ∉ pre) ∧
    ((produceEntries env (walkLeaves node [])).2 = none →
      (produceEntries env (walkLeaves node [])).1.map FileEntry.filepath =
        (walkLeaves node []).map Prod.fst) := by
  have hsends : ∀ (p : PEvent → Bool), (∀ fe : FileEntry, p (PEvent.send fe) = false) →
      List.countP p ((produceEntries env (walkLeaves node [])).1.map PEvent.send) = 0 := by
    intro p hp
    refine List.countP_eq_zero.mpr ?_
    intro a ha
    obtain ⟨fe, _, rfl⟩ := List.mem_map.mp ha
    simp [hp fe]
  have htrace : producerTrace env node =
      (produceEntries env (walkLeaves node [])).1.map PEvent.send ++
        ((match (produceEntries env (walkLeaves node [])).2 with
          | some e => [PEvent.sendErr e]
          | none => []) ++ [PEvent.closeErrChan, PEvent.closeEntryChan]) := by
    rw [producerTrace, List.append_assoc]
  refine ⟨?_, ?_, ?_, ?_, ?_⟩
  · rw [htrace, List.countP_append, hsends _ (fun fe => by simp)]
    cases hp2 : (produceEntries env (walkLeaves node [])).2 with
    | some e => simp
    | none => simp
  · rw [htrace, List.countP_append, hsends _ (fun fe => by simp)]
    cases hp2 : (produceEntries env (walkLeaves node [])).2 with
    | some e => simp
    | none => simp
  · rw [htrace, List.countP_append, hsends _ (fun fe => by simp)]
    cases hp2 : (produceEntries env (walkLeaves node [])).2 with
    | some e => simp
    | none => simp
  · refine ⟨(produceEntries env (walkLeaves node [])).1.map PEvent.send ++
      (match (produceEntries env (walkLeaves node [])).2 with
       | some e => [PEvent.sendErr e]
       | none => []), ?_, ?_, ?_⟩
    · rw [producerTrace, List.append_assoc]
    · intro hmem
      rcases List.mem_append.mp hmem with hs | he
      · obtain ⟨fe, _, hfe⟩ := List.mem_map.mp hs
        cases hfe
      · cases hp2 : (produceEntries env (walkLeaves node [])).2 with
        | some e => rw [hp2] at he; simp at he
        | none => rw [hp2] at he; simp at he
    · intro hmem
      rcases List.mem_append.mp hmem with hs | he
      · obtain ⟨fe, _, hfe⟩ := List.mem_map.mp hs
        cases hfe
      · cases hp2 : (produceEntries env (walkLeaves node [])).2 with
        | some e => rw [hp2] at he; simp at he
        | none => rw [hp2] at he; simp at he
  · intro hp2
    exact produceEntries_filepaths env _ _
      (Prod.ext rfl hp2)

/-- Witness for C8: on the concrete sample directory the walk succeeds and
the producer's sends carry exactly the leaf paths in walk order. -/
theorem producer_contract_witness :
    (produceEntries sampleEnv (walkLeaves sampleNode [])).1.map FileEntry.filepath =
      (walkLeaves sampleNode []).map Prod.fst :=
  (producer_contract sampleEnv sampleNode).2.2.2.2 (by decide)

/-- Claim C10: when the decoded legacy trie has no root path entry,
`DirectoryRepair` returns the lookup error with the zero reference, the
walk producer is never launched, and no manifest entry is added. -/
theorem directoryRepair_no_root (env : Env) (addr bs : Bytes) (node : Node) (e : Err)
    (h1 : env.fetch addr = Except.ok bs) (h2 : env.decodeNodeFn bs = Except.ok node)
    (h3 : lookupPath node rootPath = Except.error e) :
    DirectoryRepair env addr = ⟨zeroAddress, some e, [], [], false, false⟩ := by
  have hsetup : getOldDirectoryEntry env addr = SetupResult.failure e false [] := by
    simp [getOldDirectoryEntry, h1, h2, h3]
  rw [DirectoryRepair, hsetup]

/-- Witness for C10: the no-root theorem evaluated on the concrete trie
without a root path entry. -/
theorem directoryRepair_no_root_witness :
    DirectoryRepair noRootEnv dirAddr =
      ⟨zeroAddress, some (Err.lookupNotFound rootPath), [], [], false, false⟩ :=
  directoryRepair_no_root noRootEnv dirAddr dirBytes noRootNode
    (Err.lookupNotFound rootPath) (by decide) (by rfl) (by rfl)

/-- Claim C6 is refuted by the code: the one-chunk cap sits on the read of
the legacy entry blob at the migration address, not on the metadata read.
A metadata blob of 4101 bytes (above the 4096-byte ceiling) is read in
full and decoded, and the whole migration succeeds; by contrast a
4097-byte blob at the entry address itself aborts with the bounded
writer's error. -/
theorem metadata_read_uncapped :
    limitMetadataLength < (encodeMetadata bigMetadata).length ∧
    getOldFileEntry bigEnv bigAddr =
      Except.ok ⟨[], ⟨bigContentRef, bigMetaRef⟩, bigMetadata⟩ ∧
    (FileRepair bigEnv bigAddr).err = none ∧
    joinReadAllLimited entryCapEnv bigAddr limitMetadataLength =
      Except.error Err.limitExceeded := by
  have hfetch1 : bigEnv.fetch bigAddr = Except.ok (bigContentRef ++ bigMetaRef) := by
    show (if bigAddr = bigAddr then Except.ok (bigContentRef ++ bigMetaRef)
      else if bigAddr = bigMetaRef then Except.ok (encodeMetadata bigMetadata)
      else Except.error (Err.notFound bigAddr)) = _
    rw [if_pos rfl]
  have hfetch2 : bigEnv.fetch bigMetaRef = Except.ok (encodeMetadata bigMetadata) := by
    show (if bigMetaRef = bigAddr then Except.ok (bigContentRef ++ bigMetaRef)
      else if bigMetaRef = bigMetaRef then Except.ok (encodeMetadata bigMetadata)
      else Except.error (Err.notFound bigMetaRef)) = _
    rw [if_neg (by decide), if_pos rfl]
  have hlen : (bigContentRef ++ bigMetaRef).length = 64 := by
    simp [bigContentRef, bigMetaRef]
  have hjoin : joinReadAllLimited bigEnv bigAddr limitMetadataLength =
      Except.ok (bigContentRef ++ bigMetaRef) := by
    rw [joinReadAllLimited, hfetch1]
    simp [hlen, limitMetadataLength]
  have hdec : decodeEntry (bigContentRef ++ bigMetaRef) =
      Except.ok ⟨bigContentRef, bigMetaRef⟩ := by
    have ht := List.take_left bigContentRef bigMetaRef
    have hd := List.drop_left bigContentRef bigMetaRef
    have hlc : bigContentRef.length = 32 := by simp [bigContentRef]
    rw [hlc] at ht hd
    rw [decodeEntry, if_pos (by rw [hlen]; rfl)]
    rw [refSize, ht, hd]
  have hget : getOldFileEntry bigEnv bigAddr =
      Except.ok ⟨[], ⟨bigContentRef, bigMetaRef⟩, bigMetadata⟩ := by
    rw [getOldFileEntry, hjoin]
    simp only [hdec, hfetch2, decodeMetadata_encodeMetadata]
  refine ⟨?_, hget, ?_, ?_⟩
  · have hl : (encodeMetadata bigMetadata).length = 4101 := by
      simp only [encodeMetadata, bigMetadata, List.length_cons, List.length_append,
        List.length_replicate, List.length_nil]
    rw [hl]
    simp [limitMetadataLength]
  · have hstore : bigEnv.storeResult = fun _ => Except.ok (List.replicate 32 9) := rfl
    simp [FileRepair, hget, manifestAdd]
    rw [show bigEnv.newManifestErr = none from rfl]
    simp [show ∀ m2 p e2, bigEnv.addResult m2 p e2 = none from fun _ _ _ => rfl]
    rw [hstore]
  · rw [joinReadAllLimited]
    rw [show entryCapEnv.fetch bigAddr = Except.ok (List.replicate 4097 0) by
      show (if bigAddr = bigAddr then Except.ok (List.replicate 4097 0)
        else Except.error (Err.notFound bigAddr)) = _
      rw [if_pos rfl]]
    simp only [List.length_replicate, limitMetadataLength]
    norm_num

end BeeRepair
